import Mathlib

/-!
# Dynamic to-do list: a shallow embedding of `src/script.js`

The program is a browser application whose whole state is one array of `Task`
objects (`TodoApp.tasks`) mirrored into the `localStorage` slot `tasks`.
The embedding keeps

* the values the program manipulates: JSON values as `JSON.parse` builds them,
  and `undefined`;
* the application state: the task array, the storage slot, and the number of
  `Task` objects constructed so far (which selects the next identifier);
* one function per method of `TodoApp` that reads or writes that state.

Conventions of the embedding.

* A text handled by `JSON.parse` or produced by `JSON.stringify` is represented
  by the JSON value it denotes; a text `JSON.parse` rejects is `FileContent.malformed`.
* A number is a double. A finite one is given by its value, a rational. The
  infinite ones and the negative zero are kept apart: `JSON.parse` returns
  `Infinity` for a literal beyond the range of the doubles (`1e400`) and `-0`
  for the literal `-0`, and `JSON.stringify` writes the first as `null` and the
  second as `0`. `JSON.parse` rounds a literal to a double, so the literal
  `1e-400` is the number 0. `NaN` is returned neither by `JSON.parse` nor by
  `Date.now() + Math.random()`. The rationals that are the value of no double
  stand for no value of the program; what is proved for every rational holds
  for every double. Identifiers are finite, positive and only compared for
  equality.
* A string is a sequence of Unicode characters.
* `Date.now() + Math.random()` is an input of the program: `idOf n` is the value
  that expression takes the `n`-th time the `Task` constructor runs.
* `localStorage.setItem` is taken to succeed.
* The DOM is not part of the state. Of `renderTasks` the embedding keeps what can
  reach the state: whether it throws, which `importTasks` catches.
-/

namespace TodoList

/-! ## Values -/

/-- Numbers, as `JSON.parse` returns them: a finite double, given by its value
(`finite 0` is the positive zero); the negative zero; `Infinity` or `-Infinity`,
returned for a literal beyond the range of the doubles such as `1e400`. -/
inductive JSNumber where
  | finite (value : ℚ)
  | negativeZero
  | infinity (negative : Bool)
  deriving DecidableEq

/-- Values, as `JSON.parse` returns them. -/
inductive Json where
  | null
  | bool (b : Bool)
  | num (x : JSNumber)
  | str (s : String)
  | arr (items : List Json)
  | obj (members : List (String × Json))

/-- A JavaScript value stored in a field of a task: `none` is `undefined`. -/
abbrev JSVal := Option Json

/-- Exceptions raised by the operations of the embedding. -/
inductive JSError where
  | typeError
  deriving DecidableEq, Repr

/-- Own property `key` of an object built by `JSON.parse`: a key repeated in the
text keeps its last value. -/
def lookupMember (key : String) (members : List (String × Json)) : JSVal :=
  members.reverse.lookup key

/-- Property read `v.key` for a value `v` returned by `JSON.parse` and a key that
no built-in prototype defines (`text`, `category`, `priority`, `dueDate`,
`completed`): reading a property of `null` throws a `TypeError`, an object gives
its own property or `undefined`, every other value gives `undefined`. -/
def getProp (v : Json) (key : String) : Except JSError JSVal :=
  match v with
  | .null => .error .typeError
  | .obj members => .ok (lookupMember key members)
  | _ => .ok none

/-- JavaScript truthiness (`ToBoolean`). -/
def truthy : JSVal → Bool
  | none => false
  | some .null => false
  | some (.bool b) => b
  | some (.num (.finite q)) => decide (q ≠ 0)
  | some (.num .negativeZero) => false
  | some (.num (.infinity _)) => true
  | some (.str s) => decide (s ≠ "")
  | some (.arr _) => true
  | some (.obj _) => true

/-- Logical negation `!v`. -/
def jsNot (v : JSVal) : JSVal := some (.bool (!truthy v))

/-- Strict equality `v === s` against a string `s`. -/
def strictEqString (v : JSVal) (s : String) : Bool :=
  match v with
  | some (.str x) => decide (x = s)
  | _ => false

mutual
/-- Whether the conversion of a value to a string (`ToString`, as in a template
literal or in an assignment to `textContent`) throws a `TypeError`. An object
with an own property `toString` has no callable `toString` (a property built by
`JSON.parse` is never a function) and `Object.prototype.valueOf` returns the
object itself, so the conversion throws; every other object gives
`[object Object]`. An array is converted by `join`, which converts its elements. -/
def toStringThrows : Json → Bool
  | .obj members => (lookupMember "toString" members).isSome
  | .arr items => anyToStringThrows items
  | _ => false
/-- Whether the conversion to a string throws on some element of an array. -/
def anyToStringThrows : List Json → Bool
  | [] => false
  | v :: rest => toStringThrows v || anyToStringThrows rest
end

/-- Whether the conversion to a string throws on the value of a field;
`undefined` converts without exception. -/
def fieldToStringThrows : JSVal → Bool
  | none => false
  | some v => toStringThrows v

/-- White space and line terminators of ECMAScript, the characters
`String.prototype.trim` removes. -/
def isWhiteSpace (c : Char) : Bool :=
  let n := c.toNat
  n = 0x09 || n = 0x0A || n = 0x0B || n = 0x0C || n = 0x0D || n = 0x20 ||
  n = 0xA0 || n = 0x1680 || (0x2000 ≤ n && n ≤ 0x200A) || n = 0x2028 ||
  n = 0x2029 || n = 0x202F || n = 0x205F || n = 0x3000 || n = 0xFEFF

/-- The function `String.prototype.trim`. -/
def jsTrim (s : String) : String :=
  ⟨((s.data.dropWhile isWhiteSpace).reverse.dropWhile isWhiteSpace).reverse⟩

/-- Substring test on character lists. -/
def includesChars : List Char → List Char → Bool
  | [], needle => needle.isPrefixOf []
  | c :: rest, needle => needle.isPrefixOf (c :: rest) || includesChars rest needle

/-- The function `String.prototype.includes`. -/
def jsIncludes (hay needle : String) : Bool := includesChars hay.data needle.data

/-! ## Tasks -/

/-- Objects of `class Task`. -/
structure Task where
  id : ℚ
  text : JSVal
  category : JSVal
  priority : JSVal
  dueDate : JSVal
  completed : JSVal

/-- The `Task` constructor; `freshId` is the value of `Date.now() + Math.random()`
and the parameter `completed` defaults to `false` when it is `undefined`. -/
def Task.new (freshId : ℚ) (text category priority dueDate completed : JSVal) : Task :=
  { id := freshId, text := text, category := category, priority := priority,
    dueDate := dueDate, completed := some (completed.getD (.bool false)) }

mutual
/-- The value `JSON.parse` returns on the text `JSON.stringify` writes for a
value: an infinite number is written as `null` and the negative zero as `0`,
inside arrays and objects too; every other value is written as it is. -/
def Json.reparsed : Json → Json
  | .num (.infinity _) => .null
  | .num .negativeZero => .num (.finite 0)
  | .arr items => .arr (reparsedItems items)
  | .obj members => .obj (reparsedMembers members)
  | v => v
/-- The elements of an array, each written and parsed again. -/
def reparsedItems : List Json → List Json
  | [] => []
  | v :: rest => v.reparsed :: reparsedItems rest
/-- The members of an object, each value written and parsed again. -/
def reparsedMembers : List (String × Json) → List (String × Json)
  | [] => []
  | (key, v) :: rest => (key, v.reparsed) :: reparsedMembers rest
end

/-- Members of an object that `JSON.stringify` writes: those whose value is not
`undefined`. -/
def definedMembers (fields : List (String × JSVal)) : List (String × Json) :=
  fields.filterMap fun kv => kv.2.map fun v => (kv.1, v)

/-- The value `JSON.parse` returns on the text `JSON.stringify` writes for a
task: the fields that are not `undefined`, each written and parsed again. -/
def Task.toJson (t : Task) : Json :=
  .obj (definedMembers
    [("id", some (.num (.finite t.id))), ("text", t.text.map Json.reparsed),
     ("category", t.category.map Json.reparsed), ("priority", t.priority.map Json.reparsed),
     ("dueDate", t.dueDate.map Json.reparsed), ("completed", t.completed.map Json.reparsed)])

/-- The expression `new Task(t.text, t.category, t.priority, t.dueDate, t.completed)`
of `loadTasks` and `importTasks`: the five property reads, then the constructor. -/
def taskOfRecord (freshId : ℚ) (t : Json) : Except JSError Task := do
  let text ← getProp t "text"
  let category ← getProp t "category"
  let priority ← getProp t "priority"
  let dueDate ← getProp t "dueDate"
  let completed ← getProp t "completed"
  pure (Task.new freshId text category priority dueDate completed)

/-- The call `records.map(t => new Task(...))` on an array: the result, and the
number of constructor runs so far (the count starts at `n`). -/
def constructAll (idOf : Nat → ℚ) (n : Nat) : List Json → Except JSError (List Task) × Nat
  | [] => (.ok [], n)
  | r :: rest =>
    match taskOfRecord (idOf n) r with
    | .error e => (.error e, n)
    | .ok t =>
      match constructAll idOf (n + 1) rest with
      | (.ok ts, m) => (.ok (t :: ts), m)
      | (.error e, m) => (.error e, m)

/-- The call `value.map(t => new Task(...))` on a value returned by `JSON.parse`:
only an array has a `map` method. -/
def mapRecords (idOf : Nat → ℚ) (n : Nat) (value : Json) : Except JSError (List Task) × Nat :=
  match value with
  | .arr records => constructAll idOf n records
  | _ => (.error .typeError, n)

/-- Whether `createTaskElement` throws on a task: it converts to a string the
text (`text.textContent = task.text`) and, in the template literal of
`meta.textContent`, the category, the priority and the due date when it is
truthy (a falsy value is a primitive, which converts without exception). -/
def createTaskElementThrows (task : Task) : Bool :=
  fieldToStringThrows task.text || fieldToStringThrows task.category ||
    fieldToStringThrows task.priority || fieldToStringThrows task.dueDate

/-- Method `renderTasks` called without argument on the array `this.tasks`: the
elements are created in order and `updateStats` runs after them; it converts
nothing that `createTaskElement` has not converted. -/
def renderTasks (tasks : List Task) : Except JSError Unit :=
  if tasks.any createTaskElementThrows then .error .typeError else .ok ()

/-! ## Application state -/

/-- State of a `TodoApp`: the array `this.tasks`, the slot `tasks` of
`localStorage` (`none` when the key is absent) and the number of `Task` objects
constructed so far. -/
structure AppState where
  tasks : List Task
  storage : Option Json
  constructed : Nat

/-- The state of an application started on an empty storage. -/
def AppState.empty : AppState := { tasks := [], storage := none, constructed := 0 }

/-- The value `JSON.parse` returns on the text `JSON.stringify(this.tasks)`. -/
def serialize (tasks : List Task) : Json := .arr (tasks.map Task.toJson)

/-- Method `saveTasks`. -/
def saveTasks (s : AppState) : AppState :=
  { s with storage := some (serialize s.tasks) }

/-- Method `loadTasks`, on the content of the storage slot: the array it returns
or the exception it throws, and the number of constructor runs so far. -/
def loadTasks (idOf : Nat → ℚ) (n : Nat) (stored : Option Json) :
    Except JSError (List Task) × Nat :=
  match stored with
  | none => (.ok [], n)
  | some value => mapRecords idOf n value

/-- Method `addTask`; the arguments are the values of the four form controls.
The call of `renderTasks` that ends the method comes after the state is updated
and does not change it, whether it returns or throws; the same holds for
`toggleComplete`, `editTask` and `deleteTask`. -/
def addTask (idOf : Nat → ℚ) (s : AppState) (input category priority dueDate : String) :
    AppState :=
  let text := jsTrim input
  if text ≠ "" then
    let task := Task.new (idOf s.constructed) (some (.str text)) (some (.str category))
      (some (.str priority)) (some (.str dueDate)) none
    saveTasks { s with tasks := s.tasks ++ [task], constructed := s.constructed + 1 }
  else s

/-- In-place update of the first element that satisfies `p`, the element
`Array.prototype.find` returns. -/
def modifyFirst (p : Task → Bool) (f : Task → Task) : List Task → List Task
  | [] => []
  | t :: ts => if p t then f t :: ts else t :: modifyFirst p f ts

/-- Method `toggleComplete`. -/
def toggleComplete (s : AppState) (id : ℚ) : AppState :=
  match s.tasks.find? (fun t => decide (t.id = id)) with
  | some _ =>
    let tasks := modifyFirst (fun t => decide (t.id = id))
      (fun t => { t with completed := jsNot t.completed }) s.tasks
    saveTasks { s with tasks := tasks }
  | none => s

/-- Method `editTask`; `answer` is what `prompt` returns, `none` for `null`.
The call `prompt('Edit task:', task.text)` converts the text to a string first;
when that throws, the method ends there. -/
def editTask (s : AppState) (id : ℚ) (answer : Option String) : AppState :=
  match s.tasks.find? (fun t => decide (t.id = id)) with
  | some task =>
    if fieldToStringThrows task.text then s
    else
      match answer with
      | some newText =>
        if newText ≠ "" then
          let tasks := modifyFirst (fun t => decide (t.id = id))
            (fun t => { t with text := some (.str (jsTrim newText)) }) s.tasks
          saveTasks { s with tasks := tasks }
        else s
      | none => s
  | none => s

/-- Method `deleteTask`. -/
def deleteTask (s : AppState) (id : ℚ) : AppState :=
  saveTasks { s with tasks := s.tasks.filter fun t => decide (t.id ≠ id) }

/-- The function `Array.prototype.filter` with a callback that may throw. -/
def filterThrowing (p : Task → Except JSError Bool) : List Task → Except JSError (List Task)
  | [] => .ok []
  | t :: ts =>
    match p t with
    | .error e => .error e
    | .ok keep =>
      match filterThrowing p ts with
      | .error e => .error e
      | .ok rest => .ok (if keep then t :: rest else rest)

/-- The callback of `filterTasks`; `search` is already in lower case.
The call `task.text.toLowerCase()` throws unless `task.text` is a string. -/
def matchesFilter (toLowerCase : String → String) (search category priority : String)
    (task : Task) : Except JSError Bool :=
  match task.text with
  | some (.str text) =>
    .ok (jsIncludes (toLowerCase text) search &&
      (decide (category = "all") || strictEqString task.category category) &&
      (decide (priority = "all") || strictEqString task.priority priority))
  | _ => .error .typeError

/-- Method `filterTasks`: the array handed to `renderTasks`. The arguments are the
values of the search box and of the two selectors; `toLowerCase` is
`String.prototype.toLowerCase`. -/
def filterTasks (toLowerCase : String → String) (tasks : List Task)
    (searchInput category priority : String) : Except JSError (List Task) :=
  filterThrowing (matchesFilter toLowerCase (toLowerCase searchInput) category priority) tasks

/-- The array `newOrder` of the drop handler: for each list item, in DOM order,
`this.tasks.find(t => t.id == li.dataset.id)`; `none` is `undefined`.
`li.dataset.id` holds the identifier as a string and `==` converts it back to
the number it was written from, so `domIds` lists those numbers. -/
def dropOrder (tasks : List Task) (domIds : List ℚ) : List (Option Task) :=
  domIds.map fun d => tasks.find? fun t => decide (t.id = d)

/-- All the entries of an array when none is `undefined`. -/
def allDefined : List (Option Task) → Option (List Task)
  | [] => some []
  | none :: _ => none
  | some t :: rest => (allDefined rest).map fun ts => t :: ts

/-- The drop handler of `setupDragAndDrop`: `this.tasks = newOrder; this.saveTasks()`.
The result is `none` when `newOrder` has an `undefined` entry, an array the
state of the embedding does not represent. -/
def onDrop (s : AppState) (domIds : List ℚ) : Option AppState :=
  (allDefined (dropOrder s.tasks domIds)).map fun ts => saveTasks { s with tasks := ts }

/-- Content of the file chosen for the upload: a text `JSON.parse` rejects, or
the value it parses to. -/
inductive FileContent where
  | malformed
  | json (value : Json)

/-- The message of the `alert` in `importTasks`. -/
def invalidFileFormat : String := "Invalid file format."

/-- Method `importTasks`, with the `onload` callback run on the content of the
file; `file` is `event.target.files[0]`, `none` when no file was chosen. The
second component is the message passed to `alert`, if any. The `try` block
holds, in this order, the parsing and the construction of the tasks, the
assignment to `this.tasks`, `saveTasks()` and `renderTasks()`; an exception
thrown by any of them reaches the `catch`. -/
def importTasks (idOf : Nat → ℚ) (s : AppState) (file : Option FileContent) :
    AppState × Option String :=
  match file with
  | none => (s, none)
  | some .malformed => (s, some invalidFileFormat)
  | some (.json value) =>
    match mapRecords idOf s.constructed value with
    | (.ok importedTasks, n) =>
      let saved := saveTasks { s with tasks := s.tasks ++ importedTasks, constructed := n }
      match renderTasks saved.tasks with
      | .ok _ => (saved, none)
      | .error _ => (saved, some invalidFileFormat)
    | (.error _, n) => ({ s with constructed := n }, some invalidFileFormat)

/-- User actions that create tasks. -/
inductive Action where
  | add (input category priority dueDate : String)
  | upload (file : Option FileContent)

/-- Effect of one action on the state. -/
def step (idOf : Nat → ℚ) (s : AppState) : Action → AppState
  | .add input category priority dueDate => addTask idOf s input category priority dueDate
  | .upload file => (importTasks idOf s file).1

/-- Effect of a sequence of actions on an application started on an empty storage. -/
def run (idOf : Nat → ℚ) (actions : List Action) : AppState :=
  actions.foldl (step idOf) AppState.empty

/-! ## Predicates used in the statements -/

mutual
/-- Whether neither an infinite number nor the negative zero occurs in a value. -/
def Json.allFinite : Json → Bool
  | .num (.infinity _) => false
  | .num .negativeZero => false
  | .arr items => allFiniteItems items
  | .obj members => allFiniteMembers members
  | _ => true
/-- Whether neither occurs in the elements of an array. -/
def allFiniteItems : List Json → Bool
  | [] => true
  | v :: rest => v.allFinite && allFiniteItems rest
/-- Whether neither occurs in the members of an object. -/
def allFiniteMembers : List (String × Json) → Bool
  | [] => true
  | (_, v) :: rest => v.allFinite && allFiniteMembers rest
end

/-- A field that a task carries and that a text can hold: it is not `undefined`
and neither an infinite number nor the negative zero occurs in it. A string, a
boolean, `null` and a finite number other than `-0` are such values. -/
def wellFormedField : JSVal → Bool
  | none => false
  | some v => v.allFinite

/-- A well-formed task: each of its fields is carried and can be held by a text. -/
def Task.wellFormed (t : Task) : Bool :=
  wellFormedField t.text && wellFormedField t.category && wellFormedField t.priority &&
    wellFormedField t.dueDate && wellFormedField t.completed

/-- The member `key` of an object has the value `v`: the pair occurs in the list
of members and no later member has that key (the keys of an object built by
`JSON.parse` are distinct; for a key repeated in the text the last value counts). -/
def HasMember (key : String) (v : Json) (members : List (String × Json)) : Prop :=
  ∃ before after, members = before ++ (key, v) :: after ∧ key ∉ after.map Prod.fst

/-- The field a record gives for `key`: the value of that member, and `undefined`
when the record has no such member. -/
def GivesField (key : String) (members : List (String × Json)) (field : JSVal) : Prop :=
  (key ∉ members.map Prod.fst ∧ field = none) ∨
    ∃ v, HasMember key v members ∧ field = some v

/-- A task-shaped record: an object with members `text`, `category` and `priority`. -/
def isTaskRecord : Json → Bool
  | .obj members =>
    decide ("text" ∈ members.map Prod.fst) && decide ("category" ∈ members.map Prod.fst) &&
      decide ("priority" ∈ members.map Prod.fst)
  | _ => false

/-- A task carries a task-shaped record: its text, category and priority are the
values of those members, its due date is the value of the member `dueDate` or
`undefined` when the record has none, and `completed` is `false` when the record
has no member `completed`. -/
def CarriesRecord (r : Json) (t : Task) : Prop :=
  ∃ members, r = .obj members ∧
    (∃ v, HasMember "text" v members ∧ t.text = some v) ∧
    (∃ v, HasMember "category" v members ∧ t.category = some v) ∧
    (∃ v, HasMember "priority" v members ∧ t.priority = some v) ∧
    GivesField "dueDate" members t.dueDate ∧
    ("completed" ∉ members.map Prod.fst → t.completed = some (.bool false))

/-- The task appended for an element of an imported array that is not `null`.
For an object each of the four fields is the value of the member of that name,
`undefined` when it is missing, and `completed` is the value of its member or
`false` when it is missing. For a number, a string, a boolean or an array the
four fields are `undefined` and `completed` is `false`. -/
def AppendedFor (r : Json) (t : Task) : Prop :=
  match r with
  | .obj members =>
    GivesField "text" members t.text ∧ GivesField "category" members t.category ∧
    GivesField "priority" members t.priority ∧ GivesField "dueDate" members t.dueDate ∧
    (("completed" ∉ members.map Prod.fst ∧ t.completed = some (.bool false)) ∨
      ∃ v, HasMember "completed" v members ∧ t.completed = some v)
  | _ =>
    t.text = none ∧ t.category = none ∧ t.priority = none ∧ t.dueDate = none ∧
    t.completed = some (.bool false)

/-- The value `null`. -/
def isNull : Json → Bool
  | .null => true
  | _ => false

/-- The parsed documents on which `value.map(t => new Task(...))` throws: the
values that are not arrays, and the arrays with a `null` element. -/
def rejectedShape : Json → Bool
  | .arr records => records.any isNull
  | _ => true

/-- Relation between a record and the task `new Task(...)` builds from it. -/
def BuiltFrom (r : Json) (t : Task) : Prop :=
  getProp r "text" = .ok t.text ∧ getProp r "category" = .ok t.category ∧
  getProp r "priority" = .ok t.priority ∧ getProp r "dueDate" = .ok t.dueDate ∧
  ∃ c, getProp r "completed" = .ok c ∧ t.completed = some (c.getD (.bool false))

/-- The identifiers in the task array are those drawn at distinct constructions:
the images under `idOf` of a sublist of `0, ..., constructed - 1`. -/
def IdsDrawn (idOf : Nat → ℚ) (s : AppState) : Prop :=
  ∃ idxs : List Nat, idxs.Sublist (List.range s.constructed) ∧
    s.tasks.map Task.id = idxs.map idOf

/-! ## Sample data -/

/-- A task as `addTask` builds it: every field a string, `completed` a boolean. -/
def sampleTask (id : ℚ) (text : String) (completed : Bool) : Task :=
  { id := id, text := some (.str text), category := some (.str "personal"),
    priority := some (.str "low"), dueDate := some (.str ""),
    completed := some (.bool completed) }

/-- Lower-casing of the ASCII letters, a stand-in for `String.prototype.toLowerCase`
on ASCII texts. -/
def asciiLower (s : String) : String := ⟨s.data.map Char.toLower⟩

/-- The identifiers 0, 1, 2, ... in the order of construction. -/
def countingIds (n : Nat) : ℚ := n

/-- The store obtained from an empty one by importing the document
`[{"text":"X","category":"work","priority":"high","completed":null}]`. -/
def storeWithNullFlag : AppState :=
  (importTasks countingIds AppState.empty
    (some (.json (.arr [.obj [("text", .str "X"), ("category", .str "work"),
      ("priority", .str "high"), ("completed", .null)]])))).1

/-- The store holding the single task `Buy milk`, with identifier 0, saved. -/
def milkStore : AppState := saveTasks ⟨[sampleTask 0 "Buy milk" false], none, 1⟩

/-- The store obtained from an empty one by importing the document
`[{"text":"X","category":"work","priority":1e400,"dueDate":"","completed":false}]`:
`JSON.parse` returns `Infinity` for `1e400`. -/
def storeWithInfinitePriority : AppState :=
  (importTasks countingIds AppState.empty
    (some (.json (.arr [.obj [("text", .str "X"), ("category", .str "work"),
      ("priority", .num (.infinity false)), ("dueDate", .str ""),
      ("completed", .bool false)]])))).1

/-- The document `[{"text":"X","category":{"toString":1},"priority":"high"}]`. -/
def renderFailingDocument : Json :=
  .arr [.obj [("text", .str "X"), ("category", .obj [("toString", .num (.finite 1))]),
    ("priority", .str "high")]]

/-- The same identifier at every construction: evaluations of
`Date.now() + Math.random()` that give the same number, as can happen for two
constructions in the same millisecond (the records of one imported document are
built in one loop) when the two random parts agree. -/
def collidingIds (_ : Nat) : ℚ := 1730000000000

/-! ## Auxiliary facts -/

theorem dropWhile_eq_nil_of_all {α : Type} (p : α → Bool) :
    ∀ l : List α, (∀ a ∈ l, p a = true) → l.dropWhile p = []
  | [], _ => rfl
  | a :: l, h => by
    have ha : p a = true := h a (List.mem_cons_self a l)
    have hl : ∀ b ∈ l, p b = true := fun b hb => h b (List.mem_cons_of_mem a hb)
    simp [List.dropWhile, ha, dropWhile_eq_nil_of_all p l hl]

theorem jsTrim_blank (input : String) (h : ∀ c ∈ input.data, isWhiteSpace c = true) :
    jsTrim input = "" := by
  unfold jsTrim
  rw [dropWhile_eq_nil_of_all isWhiteSpace input.data h]
  rfl

theorem filterThrowing_fixed (p : Task → Except JSError Bool) :
    ∀ (tasks kept : List Task), filterThrowing p tasks = .ok kept →
      filterThrowing p kept = .ok kept
  | [], kept, h => by
    simp only [filterThrowing, Except.ok.injEq] at h
    subst h
    rfl
  | t :: ts, kept, h => by
    simp only [filterThrowing] at h
    cases hp : p t with
    | error e => simp [hp] at h
    | ok keep =>
      cases hrest : filterThrowing p ts with
      | error e => simp [hp, hrest] at h
      | ok rest =>
        have ih := filterThrowing_fixed p ts rest hrest
        simp only [hp, hrest, Except.ok.injEq] at h
        subst h
        cases keep with
        | false => simpa using ih
        | true => simp [filterThrowing, hp, ih]

theorem filterThrowing_total (p : Task → Except JSError Bool) :
    ∀ tasks : List Task, (∀ t ∈ tasks, ∃ b, p t = .ok b) →
      ∃ kept, filterThrowing p tasks = .ok kept
  | [], _ => ⟨[], rfl⟩
  | t :: ts, h => by
    obtain ⟨b, hb⟩ := h t (List.mem_cons_self t ts)
    obtain ⟨rest, hrest⟩ := filterThrowing_total p ts
      (fun u hu => h u (List.mem_cons_of_mem t hu))
    exact ⟨if b then t :: rest else rest, by simp [filterThrowing, hb, hrest]⟩

theorem find?_modifyFirst (p : Task → Bool) (f : Task → Task)
    (hp : ∀ t, p t = true → p (f t) = true) :
    ∀ tasks : List Task, (modifyFirst p f tasks).find? p = (tasks.find? p).map f
  | [] => rfl
  | t :: ts => by
    cases h : p t with
    | true => simp [modifyFirst, h, List.find?, hp t h]
    | false => simp [modifyFirst, h, List.find?, find?_modifyFirst p f hp ts]

theorem modifyFirst_modifyFirst (p : Task → Bool) (f g : Task → Task)
    (hp : ∀ t, p t = true → p (f t) = true) :
    ∀ tasks : List Task,
      modifyFirst p g (modifyFirst p f tasks) = modifyFirst p (fun t => g (f t)) tasks
  | [] => rfl
  | t :: ts => by
    cases h : p t with
    | true => simp [modifyFirst, h, hp t h]
    | false => simp [modifyFirst, h, modifyFirst_modifyFirst p f g hp ts]

theorem modifyFirst_eq_self (p : Task → Bool) (f : Task → Task) :
    ∀ tasks : List Task, (∀ t, tasks.find? p = some t → f t = t) →
      modifyFirst p f tasks = tasks
  | [], _ => rfl
  | t :: ts, h => by
    cases hpt : p t with
    | true =>
      have : f t = t := h t (by simp [List.find?, hpt])
      simp [modifyFirst, hpt, this]
    | false =>
      have ih := modifyFirst_eq_self p f ts (fun u hu => h u (by simpa [List.find?, hpt] using hu))
      simp [modifyFirst, hpt, ih]

theorem toggleComplete_found (s : AppState) (id : ℚ) (t : Task)
    (hfind : s.tasks.find? (fun t => decide (t.id = id)) = some t) :
    (toggleComplete s id).tasks = modifyFirst (fun t => decide (t.id = id))
      (fun t => { t with completed := jsNot t.completed }) s.tasks := by
  simp [toggleComplete, hfind, saveTasks]

theorem jsNot_jsNot_bool (b : Bool) : jsNot (jsNot (some (.bool b))) = some (.bool b) := by
  simp [jsNot, truthy]

mutual
theorem reparsed_of_allFinite : ∀ v : Json, v.allFinite = true → v.reparsed = v
  | .null, _ => rfl
  | .bool _, _ => rfl
  | .str _, _ => rfl
  | .num (.finite _), _ => rfl
  | .num (.infinity _), h => by simp [Json.allFinite] at h
  | .num .negativeZero, h => by simp [Json.allFinite] at h
  | .arr items, h => by
    simp only [Json.allFinite] at h
    simp only [Json.reparsed, reparsedItems_of_allFinite items h]
  | .obj members, h => by
    simp only [Json.allFinite] at h
    simp only [Json.reparsed, reparsedMembers_of_allFinite members h]
theorem reparsedItems_of_allFinite :
    ∀ items : List Json, allFiniteItems items = true → reparsedItems items = items
  | [], _ => rfl
  | v :: rest, h => by
    simp only [allFiniteItems, Bool.and_eq_true] at h
    simp only [reparsedItems, reparsed_of_allFinite v h.1, reparsedItems_of_allFinite rest h.2]
theorem reparsedMembers_of_allFinite :
    ∀ members : List (String × Json), allFiniteMembers members = true →
      reparsedMembers members = members
  | [], _ => rfl
  | (key, v) :: rest, h => by
    simp only [allFiniteMembers, Bool.and_eq_true] at h
    simp only [reparsedMembers, reparsed_of_allFinite v h.1,
      reparsedMembers_of_allFinite rest h.2]
end

theorem lookup_first (key : String) :
    ∀ l : List (String × Json),
      (key ∉ l.map Prod.fst ∧ l.lookup key = none) ∨
      ∃ v before after, l = before ++ (key, v) :: after ∧ key ∉ before.map Prod.fst ∧
        l.lookup key = some v
  | [] => Or.inl ⟨by simp, rfl⟩
  | (k, w) :: rest => by
    by_cases hk : key = k
    · subst hk
      exact Or.inr ⟨w, [], rest, rfl, by simp, by simp [List.lookup]⟩
    · have hbeq : (key == k) = false := by simpa using hk
      rcases lookup_first key rest with ⟨hn, hl⟩ | ⟨v, before, after, he, hb, hl⟩
      · refine Or.inl ⟨?_, ?_⟩
        · simpa [hk] using hn
        · simp [List.lookup, hbeq, hl]
      · refine Or.inr ⟨v, (k, w) :: before, after, by simp [he], ?_, ?_⟩
        · simpa [hk] using hb
        · simp [List.lookup, hbeq, hl]

theorem lookupMember_givesField (key : String) (members : List (String × Json)) :
    GivesField key members (lookupMember key members) := by
  unfold lookupMember
  rcases lookup_first key members.reverse with ⟨hn, hl⟩ | ⟨v, before, after, he, hb, hl⟩
  · left
    exact ⟨by simpa using hn, hl⟩
  · right
    refine ⟨v, ⟨after.reverse, before.reverse, ?_, by simpa using hb⟩, hl⟩
    have := congrArg List.reverse he
    simpa using this

theorem wellFormedField_reparsed (field : JSVal) (h : wellFormedField field = true) :
    field.map Json.reparsed = field ∧ ∃ v, field = some v := by
  cases field with
  | none => simp [wellFormedField] at h
  | some v => exact ⟨by simp [reparsed_of_allFinite v h], v, rfl⟩

theorem taskOfRecord_toJson (fresh : ℚ) (t : Task) :
    taskOfRecord fresh t.toJson
      = .ok (Task.new fresh (t.text.map Json.reparsed) (t.category.map Json.reparsed)
          (t.priority.map Json.reparsed) (t.dueDate.map Json.reparsed)
          (t.completed.map Json.reparsed)) := by
  obtain ⟨i, tx, ca, pr, du, co⟩ := t
  cases tx <;> cases ca <;> cases pr <;> cases du <;> cases co <;> rfl

theorem taskOfRecord_null (fresh : ℚ) : taskOfRecord fresh .null = .error .typeError := rfl

theorem taskOfRecord_of_not_null (fresh : ℚ) (r : Json) (h : isNull r = false) :
    ∃ t, taskOfRecord fresh r = .ok t ∧ t.id = fresh ∧ BuiltFrom r t := by
  cases r with
  | null => simp [isNull] at h
  | obj members =>
    exact ⟨_, rfl, rfl, rfl, rfl, rfl, rfl, _, rfl, rfl⟩
  | bool b => exact ⟨_, rfl, rfl, rfl, rfl, rfl, rfl, _, rfl, rfl⟩
  | num q => exact ⟨_, rfl, rfl, rfl, rfl, rfl, rfl, _, rfl, rfl⟩
  | str x => exact ⟨_, rfl, rfl, rfl, rfl, rfl, rfl, _, rfl, rfl⟩
  | arr items => exact ⟨_, rfl, rfl, rfl, rfl, rfl, rfl, _, rfl, rfl⟩

theorem range_succ_map_shift (f : Nat → ℚ) (k : Nat) :
    (List.range (k + 1)).map f = f 0 :: (List.range k).map (fun i => f (i + 1)) := by
  rw [List.range_succ_eq_map]
  simp [List.map_map, Function.comp_def]

theorem constructAll_of_not_null (idOf : Nat → ℚ) :
    ∀ (records : List Json) (n : Nat), (∀ r ∈ records, isNull r = false) →
      ∃ ts, constructAll idOf n records = (.ok ts, n + records.length) ∧
        List.Forall₂ BuiltFrom records ts ∧
        ts.map Task.id = (List.range records.length).map (fun i => idOf (n + i))
  | [], n, _ => ⟨[], rfl, List.Forall₂.nil, rfl⟩
  | r :: rest, n, h => by
    obtain ⟨t, ht, hid, hb⟩ := taskOfRecord_of_not_null (idOf n) r (h r (List.mem_cons_self r rest))
    obtain ⟨ts, hts, hf, hids⟩ := constructAll_of_not_null idOf rest (n + 1)
      (fun u hu => h u (List.mem_cons_of_mem r hu))
    refine ⟨t :: ts, ?_, List.Forall₂.cons hb hf, ?_⟩
    · simp only [constructAll, ht, hts, List.length_cons]
      rw [Nat.add_assoc, Nat.add_comm 1]
    · rw [List.length_cons, range_succ_map_shift, List.map_cons, hid, hids]
      simp [Nat.add_assoc, Nat.add_comm 1]

theorem constructAll_of_null (idOf : Nat → ℚ) :
    ∀ (records : List Json) (n : Nat), (∃ r ∈ records, isNull r = true) →
      ∃ m, constructAll idOf n records = (.error .typeError, m)
  | [], _, h => by simp at h
  | r :: rest, n, h => by
    cases hr : isNull r with
    | true =>
      have : r = .null := by cases r <;> simp_all [isNull]
      subst this
      exact ⟨n, rfl⟩
    | false =>
      obtain ⟨t, ht, -, -⟩ := taskOfRecord_of_not_null (idOf n) r hr
      have hrest : ∃ u ∈ rest, isNull u = true := by
        obtain ⟨u, hu, hnull⟩ := h
        rcases List.mem_cons.1 hu with rfl | hmem
        · rw [hr] at hnull; cases hnull
        · exact ⟨u, hmem, hnull⟩
      obtain ⟨m, hm⟩ := constructAll_of_null idOf rest (n + 1) hrest
      exact ⟨m, by simp only [constructAll, ht, hm]⟩

theorem constructAll_toJson (idOf : Nat → ℚ) :
    ∀ (tasks : List Task) (n : Nat), (∀ t ∈ tasks, Task.wellFormed t = true) →
      ∃ loaded, constructAll idOf n (tasks.map Task.toJson) = (.ok loaded, n + tasks.length) ∧
        List.Forall₂ (fun t u => u.text = t.text ∧ u.category = t.category ∧
          u.priority = t.priority ∧ u.dueDate = t.dueDate ∧ u.completed = t.completed)
          tasks loaded ∧
        loaded.map Task.id = (List.range tasks.length).map (fun i => idOf (n + i))
  | [], n, _ => ⟨[], rfl, List.Forall₂.nil, rfl⟩
  | t :: ts, n, h => by
    obtain ⟨loaded, hl, hf, hids⟩ := constructAll_toJson idOf ts (n + 1)
      (fun u hu => h u (List.mem_cons_of_mem t hu))
    have hw : Task.wellFormed t = true := h t (List.mem_cons_self t ts)
    simp only [Task.wellFormed, Bool.and_eq_true] at hw
    obtain ⟨⟨⟨⟨h1, h2⟩, h3⟩, h4⟩, h5⟩ := hw
    have e1 := (wellFormedField_reparsed _ h1).1
    have e2 := (wellFormedField_reparsed _ h2).1
    have e3 := (wellFormedField_reparsed _ h3).1
    have e4 := (wellFormedField_reparsed _ h4).1
    obtain ⟨e5, c, hc⟩ := wellFormedField_reparsed _ h5
    refine ⟨Task.new (idOf n) t.text t.category t.priority t.dueDate t.completed :: loaded,
      ?_, List.Forall₂.cons ⟨rfl, rfl, rfl, rfl, by simp [Task.new, hc]⟩ hf, ?_⟩
    · simp only [List.map_cons, constructAll, taskOfRecord_toJson, e1, e2, e3, e4, e5, hl,
        List.length_cons]
      rw [Nat.add_assoc, Nat.add_comm 1]
    · rw [List.length_cons, range_succ_map_shift, List.map_cons, hids]
      simp [Task.new, Nat.add_assoc, Nat.add_comm 1]

theorem forall₂_of_mem {α β : Type} {R S : α → β → Prop} :
    ∀ (l₁ : List α) (l₂ : List β), List.Forall₂ R l₁ l₂ →
      (∀ a ∈ l₁, ∀ b, R a b → S a b) → List.Forall₂ S l₁ l₂
  | _, _, List.Forall₂.nil, _ => List.Forall₂.nil
  | a :: l₁, b :: l₂, List.Forall₂.cons hab hrest, h =>
    List.Forall₂.cons (h a (List.mem_cons_self a l₁) b hab)
      (forall₂_of_mem l₁ l₂ hrest (fun x hx y hxy => h x (List.mem_cons_of_mem a hx) y hxy))

theorem appendedFor_of_builtFrom (r : Json) (t : Task) (hn : isNull r = false)
    (hb : BuiltFrom r t) : AppendedFor r t := by
  obtain ⟨h1, h2, h3, h4, c, h5, h6⟩ := hb
  cases r with
  | null => simp [isNull] at hn
  | obj members =>
    simp only [getProp, Except.ok.injEq] at h1 h2 h3 h4 h5
    refine ⟨h1 ▸ lookupMember_givesField _ _, h2 ▸ lookupMember_givesField _ _,
      h3 ▸ lookupMember_givesField _ _, h4 ▸ lookupMember_givesField _ _, ?_⟩
    rcases lookupMember_givesField "completed" members with ⟨ha, hv⟩ | ⟨v, hm, hv⟩
    · left
      refine ⟨ha, ?_⟩
      rw [h6, ← h5, hv]
      rfl
    · right
      refine ⟨v, hm, ?_⟩
      rw [h6, ← h5, hv]
      rfl
  | bool b =>
    simp only [getProp, Except.ok.injEq] at h1 h2 h3 h4 h5
    exact ⟨h1.symm, h2.symm, h3.symm, h4.symm, by rw [h6, ← h5]; rfl⟩
  | num x =>
    simp only [getProp, Except.ok.injEq] at h1 h2 h3 h4 h5
    exact ⟨h1.symm, h2.symm, h3.symm, h4.symm, by rw [h6, ← h5]; rfl⟩
  | str x =>
    simp only [getProp, Except.ok.injEq] at h1 h2 h3 h4 h5
    exact ⟨h1.symm, h2.symm, h3.symm, h4.symm, by rw [h6, ← h5]; rfl⟩
  | arr items =>
    simp only [getProp, Except.ok.injEq] at h1 h2 h3 h4 h5
    exact ⟨h1.symm, h2.symm, h3.symm, h4.symm, by rw [h6, ← h5]; rfl⟩

theorem carriesRecord_of_appendedFor (r : Json) (t : Task) (hr : isTaskRecord r = true)
    (ha : AppendedFor r t) : CarriesRecord r t := by
  cases r with
  | obj members =>
    simp only [isTaskRecord, Bool.and_eq_true, decide_eq_true_eq] at hr
    obtain ⟨⟨k1, k2⟩, k3⟩ := hr
    obtain ⟨g1, g2, g3, g4, g5⟩ := ha
    refine ⟨members, rfl, ?_, ?_, ?_, g4, ?_⟩
    · rcases g1 with ⟨habs, -⟩ | hv
      · exact absurd k1 habs
      · exact hv
    · rcases g2 with ⟨habs, -⟩ | hv
      · exact absurd k2 habs
      · exact hv
    · rcases g3 with ⟨habs, -⟩ | hv
      · exact absurd k3 habs
      · exact hv
    · intro habs
      rcases g5 with ⟨-, hf⟩ | ⟨v, ⟨before, after, he, -⟩, -⟩
      · exact hf
      · exact absurd (by rw [he]; simp) habs
  | null => simp [isTaskRecord] at hr
  | bool b => simp [isTaskRecord] at hr
  | num x => simp [isTaskRecord] at hr
  | str x => simp [isTaskRecord] at hr
  | arr items => simp [isTaskRecord] at hr

theorem importTasks_fst_of_ok (idOf : Nat → ℚ) (s : AppState) (value : Json)
    (ts : List Task) (n : Nat) (h : mapRecords idOf s.constructed value = (.ok ts, n)) :
    (importTasks idOf s (some (.json value))).1
      = saveTasks { s with tasks := s.tasks ++ ts, constructed := n } := by
  simp only [importTasks, h]
  split <;> rfl

theorem importTasks_of_error (idOf : Nat → ℚ) (s : AppState) (value : Json) (e : JSError)
    (n : Nat) (h : mapRecords idOf s.constructed value = (.error e, n)) :
    importTasks idOf s (some (.json value))
      = ({ s with constructed := n }, some invalidFileFormat) := by
  simp [importTasks, h]

theorem constructAll_count_le (idOf : Nat → ℚ) :
    ∀ (records : List Json) (n : Nat), n ≤ (constructAll idOf n records).2
  | [], n => Nat.le_refl n
  | r :: rest, n => by
    simp only [constructAll]
    cases taskOfRecord (idOf n) r with
    | error e => exact Nat.le_refl n
    | ok t =>
      have ih := constructAll_count_le idOf rest (n + 1)
      cases hc : constructAll idOf (n + 1) rest with
      | mk result m =>
        rw [hc] at ih
        cases result with
        | error e => exact Nat.le_of_succ_le ih
        | ok ts => exact Nat.le_of_succ_le ih

theorem mapRecords_count_le (idOf : Nat → ℚ) (n : Nat) (value : Json) :
    n ≤ (mapRecords idOf n value).2 := by
  cases value with
  | arr records => exact constructAll_count_le idOf records n
  | null => exact Nat.le_refl n
  | bool b => exact Nat.le_refl n
  | num q => exact Nat.le_refl n
  | str x => exact Nat.le_refl n
  | obj members => exact Nat.le_refl n

theorem constructAll_ok_ids (idOf : Nat → ℚ) :
    ∀ (records : List Json) (n m : Nat) (ts : List Task),
      constructAll idOf n records = (.ok ts, m) →
      m = n + ts.length ∧ ts.map Task.id = (List.range ts.length).map (fun i => idOf (n + i))
  | [], n, m, ts, h => by
    simp only [constructAll, Prod.mk.injEq, Except.ok.injEq] at h
    obtain ⟨rfl, rfl⟩ := h
    exact ⟨rfl, rfl⟩
  | r :: rest, n, m, ts, h => by
    simp only [constructAll] at h
    cases ht : taskOfRecord (idOf n) r with
    | error e => simp [ht] at h
    | ok t =>
      cases hc : constructAll idOf (n + 1) rest with
      | mk result k =>
        cases result with
        | error e => simp [ht, hc] at h
        | ok us =>
          obtain ⟨hk, hids⟩ := constructAll_ok_ids idOf rest (n + 1) k us hc
          simp only [ht, hc, Prod.mk.injEq, Except.ok.injEq] at h
          obtain ⟨rfl, rfl⟩ := h
          have hid : t.id = idOf n := by
            cases r <;> simp [taskOfRecord, getProp, bind, Except.bind, pure, Except.pure] at ht
              <;> rw [← ht] <;> rfl
          refine ⟨by rw [hk, List.length_cons]; omega, ?_⟩
          rw [List.length_cons, range_succ_map_shift, List.map_cons, hid, hids]
          simp [Nat.add_assoc, Nat.add_comm 1]

theorem idsDrawn_empty (idOf : Nat → ℚ) : IdsDrawn idOf AppState.empty :=
  ⟨[], List.nil_sublist _, rfl⟩

theorem idsDrawn_mono (idOf : Nat → ℚ) (s : AppState) (n : Nat) (hn : s.constructed ≤ n)
    (h : IdsDrawn idOf s) : IdsDrawn idOf { s with constructed := n } := by
  obtain ⟨idxs, hsub, hids⟩ := h
  exact ⟨idxs, hsub.trans (List.range_sublist.2 hn), hids⟩

theorem idsDrawn_append (idOf : Nat → ℚ) (s : AppState) (ts : List Task)
    (hts : ts.map Task.id = (List.range ts.length).map (fun i => idOf (s.constructed + i)))
    (h : IdsDrawn idOf s) :
    IdsDrawn idOf
      (saveTasks { s with tasks := s.tasks ++ ts, constructed := s.constructed + ts.length }) := by
  obtain ⟨idxs, hsub, hids⟩ := h
  refine ⟨idxs ++ (List.range ts.length).map (fun i => s.constructed + i), ?_, ?_⟩
  · show List.Sublist _ (List.range (s.constructed + ts.length))
    rw [List.range_add]
    exact List.Sublist.append hsub (List.Sublist.refl _)
  · show (s.tasks ++ ts).map Task.id = _
    rw [List.map_append, hids, hts, List.map_append, List.map_map]
    rfl

theorem idsDrawn_step (idOf : Nat → ℚ) (s : AppState) (a : Action) (h : IdsDrawn idOf s) :
    IdsDrawn idOf (step idOf s a) := by
  cases a with
  | add input category priority dueDate =>
    simp only [step, addTask]
    split
    · exact idsDrawn_append idOf s [_] rfl h
    · exact h
  | upload file =>
    cases file with
    | none => exact h
    | some content =>
      cases content with
      | malformed => exact h
      | json value =>
        have hle := mapRecords_count_le idOf s.constructed value
        cases hm : mapRecords idOf s.constructed value with
        | mk result n =>
          rw [hm] at hle
          cases result with
          | error e =>
            simp only [step, importTasks_of_error idOf s value e n hm]
            exact idsDrawn_mono idOf s n hle h
          | ok ts =>
            simp only [step, importTasks_fst_of_ok idOf s value ts n hm]
            cases value with
            | arr records =>
              obtain ⟨hn, hids⟩ := constructAll_ok_ids idOf records s.constructed n ts hm
              subst hn
              exact idsDrawn_append idOf s ts hids h
            | null => simp [mapRecords] at hm
            | bool b => simp [mapRecords] at hm
            | num q => simp [mapRecords] at hm
            | str x => simp [mapRecords] at hm
            | obj members => simp [mapRecords] at hm

theorem idsDrawn_foldl (idOf : Nat → ℚ) :
    ∀ (actions : List Action) (s : AppState), IdsDrawn idOf s →
      IdsDrawn idOf (actions.foldl (step idOf) s)
  | [], _, h => h
  | a :: rest, s, h => idsDrawn_foldl idOf rest (step idOf s a) (idsDrawn_step idOf s a h)

theorem find?_of_mem_of_nodup :
    ∀ (tasks : List Task) (t : Task), (tasks.map Task.id).Nodup → t ∈ tasks →
      tasks.find? (fun u => decide (u.id = t.id)) = some t
  | [], _, _, h => by cases h
  | u :: us, t, hd, hmem => by
    rw [List.map_cons, List.nodup_cons] at hd
    by_cases hut : u.id = t.id
    · have : t = u := by
        rcases List.mem_cons.1 hmem with h | h
        · exact h
        · exact absurd (hut ▸ List.mem_map_of_mem Task.id h) hd.1
      subst this
      simp [List.find?]
    · have hne : t ≠ u := fun h => hut (h ▸ rfl)
      have hmem2 : t ∈ us := by
        rcases List.mem_cons.1 hmem with h | h
        · exact absurd h hne
        · exact h
      simp [List.find?, hut, find?_of_mem_of_nodup us t hd.2 hmem2]

theorem dropOrder_own_ids (tasks : List Task) (hd : (tasks.map Task.id).Nodup) :
    dropOrder tasks (tasks.map Task.id) = tasks.map some := by
  unfold dropOrder
  rw [List.map_map]
  exact List.map_congr_left (fun t ht => find?_of_mem_of_nodup tasks t hd ht)

theorem allDefined_map_some : ∀ ts : List Task, allDefined (ts.map some) = some ts
  | [] => rfl
  | t :: ts => by simp [allDefined, allDefined_map_some ts]

theorem dropOrder_defined (tasks : List Task) :
    ∀ domIds : List ℚ, (∀ d ∈ domIds, d ∈ tasks.map Task.id) →
      ∃ reordered : List Task, dropOrder tasks domIds = reordered.map some ∧
        reordered.map Task.id = domIds
  | [], _ => ⟨[], rfl, rfl⟩
  | d :: ds, h => by
    obtain ⟨rest, hrest, hids⟩ := dropOrder_defined tasks ds
      (fun e he => h e (List.mem_cons_of_mem d he))
    obtain ⟨u, hu, hud⟩ := List.mem_map.1 (h d (List.mem_cons_self d ds))
    cases hf : tasks.find? (fun t => decide (t.id = d)) with
    | none =>
      have := List.find?_eq_none.1 hf u hu
      simp [hud] at this
    | some t =>
      have htd : t.id = d := by simpa using List.find?_some hf
      refine ⟨t :: rest, ?_, by rw [List.map_cons, htd, hids]⟩
      unfold dropOrder at hrest ⊢
      rw [List.map_cons, hf, hrest, List.map_cons]

/-! ## Claims -/

/-- C4. `addTask` called with an input that is empty or made only of white space
returns the state it was given: the task array, the storage slot and the number
of constructed tasks are unchanged, whatever the category, priority and due date. -/
theorem addTask_blank_unchanged (idOf : Nat → ℚ) (s : AppState)
    (input category priority dueDate : String)
    (h : ∀ c ∈ input.data, isWhiteSpace c = true) :
    addTask idOf s input category priority dueDate = s := by
  simp [addTask, jsTrim_blank input h]

/-- Witness of C4 on the store holding one task and the input made of a space, a
tab and a line feed. -/
theorem addTask_blank_unchanged_witness :
    addTask countingIds (saveTasks ⟨[sampleTask 7 "Buy milk" false], none, 1⟩)
        " \t\n" "work" "high" "2024-01-01"
      = saveTasks ⟨[sampleTask 7 "Buy milk" false], none, 1⟩ :=
  addTask_blank_unchanged _ _ _ _ _ _ (by decide)

/-- C10. Filtering is idempotent: whenever `filterTasks` returns an array, running
it again on that array with the same search text and selectors returns the same
array; and it does return an array when the text of every task is a string. -/
theorem filterTasks_idempotent (toLowerCase : String → String) (tasks : List Task)
    (searchInput category priority : String) :
    (∀ kept, filterTasks toLowerCase tasks searchInput category priority = .ok kept →
      filterTasks toLowerCase kept searchInput category priority = .ok kept) ∧
    ((∀ t ∈ tasks, ∃ x, t.text = some (.str x)) →
      ∃ kept, filterTasks toLowerCase tasks searchInput category priority = .ok kept) := by
  refine ⟨fun kept h => filterThrowing_fixed _ tasks kept h, fun h => ?_⟩
  apply filterThrowing_total
  intro t ht
  obtain ⟨x, hx⟩ := h t ht
  simp [matchesFilter, hx]

/-- Witness of C10: searching `Milk` in the list of scenario C keeps the milk
task, and filtering the result again keeps it. -/
theorem filterTasks_idempotent_witness :
    filterTasks asciiLower [sampleTask 1 "Buy milk" false, sampleTask 2 "Walk dog" false]
        "Milk" "all" "all" = .ok [sampleTask 1 "Buy milk" false] ∧
    filterTasks asciiLower [sampleTask 1 "Buy milk" false] "Milk" "all" "all"
      = .ok [sampleTask 1 "Buy milk" false] :=
  ⟨by rfl,
   (filterTasks_idempotent asciiLower
      [sampleTask 1 "Buy milk" false, sampleTask 2 "Walk dog" false] "Milk" "all" "all").1
      [sampleTask 1 "Buy milk" false] (by rfl)⟩

/-- C9, as stated, fails: in the store `storeWithNullFlag` the imported task has
`completed` equal to `null`; two runs of `toggleComplete` on its identifier leave
`completed` equal to `false`, so the task array differs from the original one. -/
theorem toggleComplete_twice_counterexample :
    storeWithNullFlag.tasks.map Task.completed = [some .null] ∧
    (toggleComplete (toggleComplete storeWithNullFlag 0) 0).tasks.map Task.completed
      = [some (.bool false)] ∧
    (toggleComplete (toggleComplete storeWithNullFlag 0) 0).tasks ≠ storeWithNullFlag.tasks := by
  refine ⟨by rfl, by rfl, fun h => ?_⟩
  have h2 := congrArg (List.map Task.completed) h
  have h3 : [some (Json.bool false)] = [some Json.null] := h2
  simp at h3

/-- C9, amended. For every store and every identifier such that the task found
by that identifier, if any, has a boolean `completed` flag, two runs of
`toggleComplete` give back the original task array. -/
theorem toggleComplete_twice (s : AppState) (id : ℚ)
    (h : ∀ t, s.tasks.find? (fun t => decide (t.id = id)) = some t →
      ∃ b, t.completed = some (.bool b)) :
    (toggleComplete (toggleComplete s id) id).tasks = s.tasks := by
  have hp : ∀ t : Task, decide (t.id = id) = true →
      decide (({ t with completed := jsNot t.completed } : Task).id = id) = true :=
    fun t ht => ht
  cases hfind : s.tasks.find? (fun t => decide (t.id = id)) with
  | none => simp [toggleComplete, hfind]
  | some t =>
    have h1 := toggleComplete_found s id t hfind
    have h2 : (toggleComplete s id).tasks.find? (fun t => decide (t.id = id))
        = some { t with completed := jsNot t.completed } := by
      rw [h1, find?_modifyFirst _ _ hp, hfind]
      rfl
    have h3 := toggleComplete_found (toggleComplete s id) id _ h2
    rw [h3, h1, modifyFirst_modifyFirst _ _ _ hp]
    apply modifyFirst_eq_self
    intro u hu
    obtain ⟨b, hb⟩ := h u hu
    cases u
    simp only at hb
    subst hb
    simp [jsNot_jsNot_bool]

/-- Witness of the amended C9, on a store of two tasks. -/
theorem toggleComplete_twice_witness :
    (toggleComplete (toggleComplete
        ⟨[sampleTask 1 "Buy milk" false, sampleTask 2 "Walk dog" true], none, 2⟩ 2) 2).tasks
      = [sampleTask 1 "Buy milk" false, sampleTask 2 "Walk dog" true] :=
  toggleComplete_twice ⟨[sampleTask 1 "Buy milk" false, sampleTask 2 "Walk dog" true], none, 2⟩ 2
    (by
      intro t ht
      have : t = sampleTask 2 "Walk dog" true := by
        have h0 : List.find? (fun t => decide (t.id = 2))
            [sampleTask 1 "Buy milk" false, sampleTask 2 "Walk dog" true]
            = some (sampleTask 2 "Walk dog" true) := by rfl
        exact (Option.some.inj (h0.symm.trans ht)).symm
      exact ⟨true, by rw [this]; rfl⟩)

/-- C5 fails on the code. In a store holding the task `Buy milk`, `editTask` with
the answer made of three spaces replaces the text of the task by the empty
string and saves it: the answer is tested before it is trimmed, whereas
`addTask` trims before it tests. -/
theorem editTask_blank_answer_erases_text :
    (editTask (saveTasks ⟨[sampleTask 7 "Buy milk" false], none, 1⟩) 7 (some "   ")).tasks
      = [{ sampleTask 7 "Buy milk" false with text := some (.str "") }] ∧
    (editTask (saveTasks ⟨[sampleTask 7 "Buy milk" false], none, 1⟩) 7 (some "   ")).storage
      = some (serialize [{ sampleTask 7 "Buy milk" false with text := some (.str "") }]) := by
  constructor <;> rfl

/-- C1, as stated, fails. The store `milkStore` holds one well-formed task whose
identifier is 0; `loadTasks`, run on the slot `saveTasks` wrote, builds the task
again with `new Task(...)`, which draws a new identifier (here 1): the array
loaded has the same text, category, priority, due date and flag, and an
identifier that differs, so it is not the array that was saved. A field is lost
as well when it holds a number no text can hold: in the store
`storeWithInfinitePriority` the task carries all its fields, its priority is
`Infinity`, the slot holds `null` for it and the loaded task has priority `null`. -/
theorem loadTasks_saveTasks_counterexample :
    milkStore.tasks = [sampleTask 0 "Buy milk" false] ∧
    Task.wellFormed (sampleTask 0 "Buy milk" false) = true ∧
    (loadTasks countingIds milkStore.constructed (saveTasks milkStore).storage).1
      = .ok [sampleTask 1 "Buy milk" false] ∧
    (loadTasks countingIds milkStore.constructed (saveTasks milkStore).storage).1
      ≠ .ok milkStore.tasks ∧
    storeWithInfinitePriority.tasks.map Task.priority = [some (.num (.infinity false))] ∧
    (loadTasks countingIds storeWithInfinitePriority.constructed
        (saveTasks storeWithInfinitePriority).storage).1.toOption.map (List.map Task.priority)
      = some [some .null] := by
  refine ⟨rfl, rfl, rfl, fun h => ?_, rfl, rfl⟩
  have h1 : (Except.ok [sampleTask 1 "Buy milk" false] : Except JSError (List Task))
      = .ok [sampleTask 0 "Buy milk" false] := h
  have h2 : (sampleTask 1 "Buy milk" false).id = (sampleTask 0 "Buy milk" false).id := by
    injection h1 with h1
    injection h1 with h1 _
    rw [h1]
  simp [sampleTask] at h2

/-- C1, amended. For every store whose tasks are well formed (each field is
carried, and holds neither an infinite number, which `JSON.stringify` writes as
`null`, nor the negative zero, which it writes as `0`),
`loadTasks` run on the slot written by `saveTasks` returns an array of the same
length whose tasks have, position by position, the text, category, priority, due
date and completed flag of the saved ones; the identifiers are not the saved
ones but the values the constructor draws, in order, while loading. -/
theorem loadTasks_saveTasks (idOf : Nat → ℚ) (n : Nat) (s : AppState)
    (h : ∀ t ∈ s.tasks, Task.wellFormed t = true) :
    ∃ loaded, loadTasks idOf n (saveTasks s).storage = (.ok loaded, n + s.tasks.length) ∧
      loaded.length = s.tasks.length ∧
      List.Forall₂ (fun t u => u.text = t.text ∧ u.category = t.category ∧
        u.priority = t.priority ∧ u.dueDate = t.dueDate ∧ u.completed = t.completed)
        s.tasks loaded ∧
      loaded.map Task.id = (List.range s.tasks.length).map (fun i => idOf (n + i)) := by
  obtain ⟨loaded, hl, hf, hids⟩ := constructAll_toJson idOf s.tasks n h
  exact ⟨loaded, hl, hf.length_eq.symm, hf, hids⟩

/-- Witness of the amended C1 on the store `milkStore`. -/
theorem loadTasks_saveTasks_witness :
    ∃ loaded, loadTasks countingIds 1 (saveTasks milkStore).storage
        = (.ok loaded, 1 + milkStore.tasks.length) ∧
      loaded.length = milkStore.tasks.length ∧
      List.Forall₂ (fun t u => u.text = t.text ∧ u.category = t.category ∧
        u.priority = t.priority ∧ u.dueDate = t.dueDate ∧ u.completed = t.completed)
        milkStore.tasks loaded ∧
      loaded.map Task.id
        = (List.range milkStore.tasks.length).map (fun i => countingIds (1 + i)) :=
  loadTasks_saveTasks countingIds 1 milkStore (by
    intro t ht
    have : t = sampleTask 0 "Buy milk" false := List.mem_singleton.1 ht
    rw [this]
    rfl)

/-- C2. Importing a document that is a JSON array of task-shaped records appends:
the task array has the length of the old one plus the number of records, it
starts with the old tasks in their order, and the tasks after them carry the
records, one by one in the order of the document: the text, category and
priority of a task are the values of those members of its record, its due date
is the value of the member `dueDate` (`undefined` when the record has none), and
`completed` is `false` when the record has no such member. -/
theorem importTasks_appends (idOf : Nat → ℚ) (s : AppState) (records : List Json)
    (h : ∀ r ∈ records, isTaskRecord r = true) :
    (importTasks idOf s (some (.json (.arr records)))).1.tasks.length
      = s.tasks.length + records.length ∧
    (importTasks idOf s (some (.json (.arr records)))).1.tasks.take s.tasks.length = s.tasks ∧
    List.Forall₂ CarriesRecord records
      ((importTasks idOf s (some (.json (.arr records)))).1.tasks.drop s.tasks.length) := by
  have hn : ∀ r ∈ records, isNull r = false := by
    intro r hr
    have := h r hr
    cases r <;> simp_all [isTaskRecord, isNull]
  obtain ⟨ts, hts, hf, -⟩ := constructAll_of_not_null idOf records s.constructed hn
  rw [importTasks_fst_of_ok idOf s (.arr records) ts _ hts]
  refine ⟨?_, ?_, ?_⟩
  · simp [saveTasks, hf.length_eq]
  · simp [saveTasks]
  · simp only [saveTasks, List.drop_left]
    exact forall₂_of_mem records ts hf (fun r hr t hb =>
      carriesRecord_of_appendedFor r t (h r hr) (appendedFor_of_builtFrom r t (hn r hr) hb))

/-- Witness of C2, scenario D: the document
`[{"text":"X","category":"work","priority":"high"}]` imported into `milkStore`
gives two tasks, the old one first; the new one has the text, category and
priority of the record, no due date, and `completed` equal to `false`. -/
theorem importTasks_appends_witness :
    ((importTasks countingIds milkStore (some (.json (.arr
        [.obj [("text", .str "X"), ("category", .str "work"),
          ("priority", .str "high")]])))).1.tasks.length = milkStore.tasks.length + 1 ∧
      (importTasks countingIds milkStore (some (.json (.arr
        [.obj [("text", .str "X"), ("category", .str "work"),
          ("priority", .str "high")]])))).1.tasks.take milkStore.tasks.length
        = milkStore.tasks ∧
      List.Forall₂ CarriesRecord
        [.obj [("text", .str "X"), ("category", .str "work"), ("priority", .str "high")]]
        ((importTasks countingIds milkStore (some (.json (.arr
          [.obj [("text", .str "X"), ("category", .str "work"),
            ("priority", .str "high")]])))).1.tasks.drop milkStore.tasks.length)) ∧
    (importTasks countingIds milkStore (some (.json (.arr
        [.obj [("text", .str "X"), ("category", .str "work"),
          ("priority", .str "high")]])))).1.tasks
      = [sampleTask 0 "Buy milk" false,
         { id := 1, text := some (.str "X"), category := some (.str "work"),
           priority := some (.str "high"), dueDate := none,
           completed := some (.bool false) }] :=
  ⟨importTasks_appends countingIds milkStore
    [.obj [("text", .str "X"), ("category", .str "work"), ("priority", .str "high")]]
    (by
      intro r hr
      rw [List.mem_singleton.1 hr]
      rfl), rfl⟩

/-- C3 fails on the code. The document `renderFailingDocument` parses as JSON and
its record is built without exception; `importTasks` appends the task and saves
the array, and only then `renderTasks` throws, converting the category to a
string. The `catch` signals `Invalid file format.` while the task array and the
storage slot hold one task more than before the import. -/
theorem importTasks_alert_after_append :
    rejectedShape renderFailingDocument = false ∧
    renderTasks (importTasks countingIds milkStore (some (.json renderFailingDocument))).1.tasks
      = .error .typeError ∧
    (importTasks countingIds milkStore (some (.json renderFailingDocument))).2
      = some invalidFileFormat ∧
    milkStore.tasks.map Task.text = [some (.str "Buy milk")] ∧
    (importTasks countingIds milkStore (some (.json renderFailingDocument))).1.tasks.map
      Task.text = [some (.str "Buy milk"), some (.str "X")] ∧
    milkStore.storage = some (serialize milkStore.tasks) ∧
    (importTasks countingIds milkStore (some (.json renderFailingDocument))).1.storage
      = some (serialize
          (importTasks countingIds milkStore (some (.json renderFailingDocument))).1.tasks) :=
  ⟨rfl, rfl, rfl, rfl, rfl, rfl, rfl⟩

/-- C7, as stated, fails. The document `[5, {}]` parses as JSON and neither of
its elements is an object with text, category and priority; `importTasks` signals
no error and appends two tasks, whose text, category and priority are `undefined`. -/
theorem importTasks_accepts_other_shapes :
    isTaskRecord (.num (.finite 5)) = false ∧ isTaskRecord (.obj []) = false ∧
    (importTasks countingIds milkStore (some (.json (.arr [.num (.finite 5), .obj []])))).2 = none ∧
    (importTasks countingIds milkStore (some (.json (.arr [.num (.finite 5), .obj []])))).1.tasks.length
      = milkStore.tasks.length + 2 ∧
    (importTasks countingIds milkStore (some (.json (.arr [.num (.finite 5), .obj []])))).1.tasks.map
      Task.text = [some (.str "Buy milk"), none, none] := by
  refine ⟨rfl, rfl, rfl, rfl, rfl⟩

/-- C7, amended. For a document that parses as JSON, `importTasks` signals
`Invalid file format.` and leaves the task array and the storage slot unchanged
when the value is not an array or is an array with a `null` element. On every
other array the old tasks are kept in their order and one task is appended per
element, in the order of the document, whatever the elements are: for an object
the fields of the task are the values of the members of those names, `undefined`
where a member is missing (`completed` is then `false`); for a number, a string,
a boolean or an array all four fields are `undefined`. -/
theorem importTasks_rejected_shapes (idOf : Nat → ℚ) (s : AppState) (value : Json) :
    (rejectedShape value = true →
      (importTasks idOf s (some (.json value))).2 = some invalidFileFormat ∧
      (importTasks idOf s (some (.json value))).1.tasks = s.tasks ∧
      (importTasks idOf s (some (.json value))).1.storage = s.storage) ∧
    (rejectedShape value = false →
      ∃ records, value = .arr records ∧
        (importTasks idOf s (some (.json value))).1.tasks.length
          = s.tasks.length + records.length ∧
        (importTasks idOf s (some (.json value))).1.tasks.take s.tasks.length = s.tasks ∧
        List.Forall₂ AppendedFor records
          ((importTasks idOf s (some (.json value))).1.tasks.drop s.tasks.length)) := by
  constructor
  · intro h
    have hm : ∃ n, mapRecords idOf s.constructed value = (.error .typeError, n) := by
      cases value with
      | arr records =>
        have : ∃ r ∈ records, isNull r = true := by
          simpa [rejectedShape, List.any_eq_true] using h
        exact constructAll_of_null idOf records s.constructed this
      | null => exact ⟨_, rfl⟩
      | bool b => exact ⟨_, rfl⟩
      | num x => exact ⟨_, rfl⟩
      | str x => exact ⟨_, rfl⟩
      | obj members => exact ⟨_, rfl⟩
    obtain ⟨n, hn⟩ := hm
    rw [importTasks_of_error idOf s value _ n hn]
    exact ⟨rfl, rfl, rfl⟩
  · intro h
    cases value with
    | arr records =>
      have hnull : ∀ r ∈ records, isNull r = false := by
        intro r hr
        cases hr2 : isNull r with
        | false => rfl
        | true =>
          have : rejectedShape (.arr records) = true := by
            simp only [rejectedShape, List.any_eq_true]
            exact ⟨r, hr, hr2⟩
          rw [h] at this
          cases this
      obtain ⟨ts, hts, hf, -⟩ := constructAll_of_not_null idOf records s.constructed hnull
      rw [importTasks_fst_of_ok idOf s (.arr records) ts _ hts]
      refine ⟨records, rfl, by simp [saveTasks, hf.length_eq], by simp [saveTasks], ?_⟩
      simp only [saveTasks, List.drop_left]
      exact forall₂_of_mem records ts hf (fun r hr t hb =>
        appendedFor_of_builtFrom r t (hnull r hr) hb)
    | null => simp [rejectedShape] at h
    | bool b => simp [rejectedShape] at h
    | num x => simp [rejectedShape] at h
    | str x => simp [rejectedShape] at h
    | obj members => simp [rejectedShape] at h

/-- Witness of the amended C7. The document `{"text":"X"}`, an object and not an
array, is refused, and the store `milkStore` is unchanged. The document
`["abc", {"text":"X"}]` is accepted: the old task is kept and two tasks are
appended, the first with no field, the second with the text of its element. -/
theorem importTasks_rejected_shapes_witness :
    ((importTasks countingIds milkStore (some (.json (.obj [("text", .str "X")])))).2
        = some invalidFileFormat ∧
      (importTasks countingIds milkStore (some (.json (.obj [("text", .str "X")])))).1.tasks
        = milkStore.tasks ∧
      (importTasks countingIds milkStore (some (.json (.obj [("text", .str "X")])))).1.storage
        = milkStore.storage) ∧
    (∃ records, Json.arr [.str "abc", .obj [("text", .str "X")]] = .arr records ∧
      (importTasks countingIds milkStore
          (some (.json (.arr [.str "abc", .obj [("text", .str "X")]])))).1.tasks.length
        = milkStore.tasks.length + records.length ∧
      (importTasks countingIds milkStore
          (some (.json (.arr [.str "abc", .obj [("text", .str "X")]])))).1.tasks.take
          milkStore.tasks.length = milkStore.tasks ∧
      List.Forall₂ AppendedFor records
        ((importTasks countingIds milkStore
          (some (.json (.arr [.str "abc", .obj [("text", .str "X")]])))).1.tasks.drop
          milkStore.tasks.length)) ∧
    (importTasks countingIds milkStore
        (some (.json (.arr [.str "abc", .obj [("text", .str "X")]])))).1.tasks
      = [sampleTask 0 "Buy milk" false,
         { id := 1, text := none, category := none, priority := none, dueDate := none,
           completed := some (.bool false) },
         { id := 2, text := some (.str "X"), category := none, priority := none,
           dueDate := none, completed := some (.bool false) }] :=
  ⟨(importTasks_rejected_shapes countingIds milkStore (.obj [("text", .str "X")])).1 rfl,
   (importTasks_rejected_shapes countingIds milkStore
      (.arr [.str "abc", .obj [("text", .str "X")]])).2 rfl, rfl⟩

/-- C6, as stated, fails. Nothing in the code compares a new identifier with the
ones in use: when `Date.now() + Math.random()` takes the same value at two
constructions, here for the two records of one imported document, the two tasks
get the same identifier. -/
theorem ids_distinct_counterexample :
    (run collidingIds [.upload (some (.json (.arr
        [.obj [("text", .str "X"), ("category", .str "work"), ("priority", .str "high")],
         .obj [("text", .str "Y"), ("category", .str "work"), ("priority", .str "high")]])))]
      ).tasks.map Task.id = [1730000000000, 1730000000000] ∧
    ¬ ((run collidingIds [.upload (some (.json (.arr
        [.obj [("text", .str "X"), ("category", .str "work"), ("priority", .str "high")],
         .obj [("text", .str "Y"), ("category", .str "work"), ("priority", .str "high")]])))]
      ).tasks.map Task.id).Nodup := by
  have h : (run collidingIds [.upload (some (.json (.arr
        [.obj [("text", .str "X"), ("category", .str "work"), ("priority", .str "high")],
         .obj [("text", .str "Y"), ("category", .str "work"), ("priority", .str "high")]])))]
      ).tasks.map Task.id = [1730000000000, 1730000000000] := rfl
  refine ⟨h, ?_⟩
  rw [h]
  simp

/-- C6, amended. When the values drawn for the identifiers at distinct
constructions are distinct (`idOf` is injective), the identifiers of the tasks
are pairwise distinct after every finite sequence of `addTask` and `importTasks`
run from an empty store. -/
theorem ids_distinct_of_injective (idOf : Nat → ℚ) (hinj : Function.Injective idOf)
    (actions : List Action) : ((run idOf actions).tasks.map Task.id).Nodup := by
  obtain ⟨idxs, hsub, hids⟩ := idsDrawn_foldl idOf actions AppState.empty (idsDrawn_empty idOf)
  unfold run
  rw [hids]
  exact (hsub.nodup (List.nodup_range _)).map hinj

/-- Witness of the amended C6, with the identifiers 0, 1, 2, ... -/
theorem ids_distinct_of_injective_witness :
    ((run countingIds [.add "Buy milk" "personal" "low" "", .upload (some (.json (.arr
        [.obj [("text", .str "X"), ("category", .str "work"), ("priority", .str "high")]]))),
        .add "  " "work" "high" "", .add "Walk dog" "personal" "low" ""]).tasks.map
      Task.id).Nodup :=
  ids_distinct_of_injective countingIds (fun _ _ h => Nat.cast_injective h) _

/-- C8. In a store whose identifiers are pairwise distinct, the drop handler run
on a sequence of identifiers that is a permutation of the stored ones finds a
task for every entry (no entry of `newOrder` is `undefined`) and replaces the
task array by a permutation of itself whose identifiers are the given sequence,
in that order; the array is then saved. -/
theorem onDrop_permutation (s : AppState) (domIds : List ℚ)
    (hd : (s.tasks.map Task.id).Nodup) (hp : domIds.Perm (s.tasks.map Task.id)) :
    ∃ reordered : List Task, dropOrder s.tasks domIds = reordered.map some ∧
      onDrop s domIds = some (saveTasks { s with tasks := reordered }) ∧
      reordered.map Task.id = domIds ∧ reordered.Perm s.tasks := by
  obtain ⟨reordered, hr, hids⟩ := dropOrder_defined s.tasks domIds (fun d hm => hp.mem_iff.1 hm)
  refine ⟨reordered, hr, ?_, hids, ?_⟩
  · simp [onDrop, hr, allDefined_map_some]
  · have h1 : (dropOrder s.tasks domIds).Perm (dropOrder s.tasks (s.tasks.map Task.id)) :=
      hp.map _
    rw [hr, dropOrder_own_ids s.tasks hd] at h1
    have h2 := h1.filterMap id
    simpa [List.filterMap_map] using h2

/-- Witness of C8 on three tasks moved to the order 3, 1, 2. -/
theorem onDrop_permutation_witness :
    ∃ reordered : List Task,
      dropOrder [sampleTask 1 "a" false, sampleTask 2 "b" true, sampleTask 3 "c" false]
        [3, 1, 2] = reordered.map some ∧
      onDrop ⟨[sampleTask 1 "a" false, sampleTask 2 "b" true, sampleTask 3 "c" false], none, 3⟩
        [3, 1, 2] = some (saveTasks
          { (⟨[sampleTask 1 "a" false, sampleTask 2 "b" true, sampleTask 3 "c" false], none, 3⟩ :
              AppState) with tasks := reordered }) ∧
      reordered.map Task.id = [3, 1, 2] ∧
      reordered.Perm [sampleTask 1 "a" false, sampleTask 2 "b" true, sampleTask 3 "c" false] :=
  onDrop_permutation
    ⟨[sampleTask 1 "a" false, sampleTask 2 "b" true, sampleTask 3 "c" false], none, 3⟩ [3, 1, 2]
    (by decide) (by decide)

end TodoList
